import Mathlib

/-!
Shallow embedding of the incremental cache and result-aggregation layer of
partybal (`invoke.py`).

Modelling conventions:
* Python strings are `String`; where character-level splitting matters
  (file names) they are `List Char`.
* Timestamps (`datetime` values and file mtimes) are `Int`; only their
  ordering and equality are relevant to the embedded code.
* A pandas data frame is a record of column-presence flags plus a row list;
  a `none` cell models NaN.
* A raised Python exception is `Except.error ()`.
-/

/-- One row of a parsed statistics result file, restricted to the columns the
embedded operations read.  `none` models a NaN cell. -/
structure Row where
  segment : Option String
  window_index : Option Int
deriving DecidableEq

/-- A parsed result file (`Result.data`): the pandas frame seen through the
columns the core reads.  `hasSegment` / `hasWindowIndex` record whether the
column exists at all (absent column ⇒ attribute access raises). -/
structure DataFrame where
  hasSegment : Bool
  hasWindowIndex : Bool
  rows : List Row
deriving DecidableEq

/-- `self.data.segment.fillna("all")` as the list of per-row values. -/
def defaultedSegments (d : DataFrame) : List String :=
  d.rows.map fun r => r.segment.getD "all"

/-- `sorted(segments)` after `segments.remove("all")`: the distinct defaulted
segment values other than `"all"`, sorted lexicographically. -/
def segmentsRest (d : DataFrame) : List String :=
  List.insertionSort (fun a b => a ≤ b)
    (((defaultedSegments d).dedup).filter fun s => decide (s ≠ "all"))

/-- `Result.segments` (invoke.py lines 252-259).  `Except.error ()` models the
`KeyError` raised by `segments.remove("all")` when `"all"` is not among the
distinct defaulted values. -/
def segments (d : DataFrame) : Except Unit (List String) :=
  if d.hasSegment then
    if "all" ∈ (defaultedSegments d).dedup then
      Except.ok ("all" :: segmentsRest d)
    else
      Except.error ()
  else
    Except.ok ["all"]

/-- `len(df.window_index.unique())`; `Except.error ()` models the
`AttributeError` raised when the `window_index` column is absent.  pandas
`unique` keeps NaN as a single value, matching `dedup` over `Option`. -/
def windowCount (d : DataFrame) : Except Unit Nat :=
  if d.hasWindowIndex then
    Except.ok ((d.rows.map fun r => r.window_index).dedup.length)
  else
    Except.error ()

/-- One `if self.<period>: available.append(f"<code>{n}")` step of
`available_code`, with exception propagation. -/
def appendPeriod (code : String) (acc : List String) (d : Option DataFrame) :
    Except Unit (List String) :=
  match d with
  | none => Except.ok acc
  | some df =>
    match windowCount df with
    | Except.ok n => Except.ok (acc ++ [code ++ toString n])
    | Except.error e => Except.error e

/-- The body of the `try` block of `ResultSet.available_code`. -/
def availableGo (o w d : Option DataFrame) : Except Unit (List String) :=
  match appendPeriod "W" (if o.isSome then ["O"] else []) w with
  | Except.error e => Except.error e
  | Except.ok acc => appendPeriod "D" acc d

/-- `ResultSet.available_code` (invoke.py lines 302-316): `" ".join(available)`
on success, the literal string `"None"` when the `try` block raises.  The three
arguments are the parsed overall / weekly / daily files (`none` = file does
not exist, so `get_result` returns `None`). -/
def available_code (o w d : Option DataFrame) : String :=
  match availableGo o w d with
  | Except.ok l => String.intercalate " " l
  | Except.error _ => "None"

/-- The mtime filter inside `Cache.new_since_last_run`: the names of the
(path, mtime) pairs whose mtime is strictly greater than `lr`. -/
def scanResults (files : List (String × Int)) (lr : Int) : List String :=
  (files.filter fun f => decide (lr < f.2)).map Prod.fst

/-- `Cache.new_since_last_run` (invoke.py lines 78-85).  `dir` is the results
subdirectory: `none` when it does not exist, in which case `Path.iterdir`
raises `FileNotFoundError` (`Except.error ()`); otherwise the directory
listing as (path, mtime) pairs.  `stored` is the persisted last-run marker
(`self.last_run`), used when `since` is `None` (Python `last_run or
self.last_run`; datetimes are never falsy). -/
def new_since_last_run (dir : Option (List (String × Int))) (stored : Int)
    (since : Option Int) : Except Unit (List String) :=
  let lr := since.getD stored
  match dir with
  | none => Except.error ()
  | some files => Except.ok (scanResults files lr)

/-- `datetime.min.replace(tzinfo=UTC)` as epoch seconds
(0001-01-01T00:00:00Z). -/
def datetimeMin : Int := -62135596800

/-- Python `str.strip()`. -/
def pyStrip (s : List Char) : List Char :=
  (((s.dropWhile Char.isWhitespace).reverse).dropWhile Char.isWhitespace).reverse

/-- `Path.read_text()`: raises `FileNotFoundError` when the file is absent. -/
def read_text (content : Option (List Char)) : Except Unit (List Char) :=
  match content with
  | none => Except.error ()
  | some s => Except.ok s

/-- `Cache.last_run` (invoke.py lines 44-51).  `parse` abstracts
`dateutil.parser.isoparse` (`none` = the parser raises); `content` is the
marker file's content (`none` = file absent).  Everything inside the `try`
is run, and any error falls back to `datetime.min.replace(tzinfo=UTC)`. -/
def last_run (parse : List Char → Option Int) (content : Option (List Char)) : Int :=
  match (match read_text content with
    | Except.error e => Except.error e
    | Except.ok s =>
      match parse (pyStrip s) with
      | some t => Except.ok t
      | none => Except.error ()) with
  | Except.ok t => t
  | Except.error _ => datetimeMin

/-- Experimenter v1 branch record. -/
structure Variant where
  slug : String
  description : String
  is_control : Bool
deriving DecidableEq

/-- Experimenter v1 experiment record. -/
structure Experiment where
  name : String
  slug : String
  normandy_slug : String
  variants : List Variant
  start_date : Option Int
deriving DecidableEq

/-- The `for v in self.variants: if v.is_control: break` loop of
`Experiment.control_branch_slug`: the value of the loop variable after the
loop (first control variant if any, otherwise the last element scanned);
`none` when the list is empty, in which case `v` is unbound and the
subsequent `v.slug` raises. -/
def loopVar : Option Variant → List Variant → Option Variant
  | acc, [] => acc
  | _, v :: vs => if v.is_control then some v else loopVar (some v) vs

/-- `Experiment.control_branch_slug` (invoke.py lines 116-121);
`Except.error ()` models the `UnboundLocalError` on an empty variants list. -/
def control_branch_slug (e : Experiment) : Except Unit String :=
  match loopVar none e.variants with
  | some v => Except.ok v.slug
  | none => Except.error ()

/-- `Experiment.filename_slug`: `normandy_slug.replace("-", "_")`. -/
def filename_slug (e : Experiment) : String :=
  String.map (fun c => if c = '-' then '_' else c) e.normandy_slug

/-- Experimenter v6 (Nimbus) branch record. -/
structure NimbusBranch where
  slug : String
deriving DecidableEq

/-- Experimenter v6 (Nimbus) experiment record; `startDate` is epoch seconds
(`none` = the feed's null). -/
structure NimbusExperiment where
  slug : String
  userFacingName : String
  branches : List NimbusBranch
  startDate : Option Int
  referenceBranch : Option String
deriving DecidableEq

/-- `NimbusExperiment.branches_as_variants` (invoke.py lines 156-166);
`branch.slug == self.referenceBranch` is false when `referenceBranch` is
`None`. -/
def branches_as_variants (n : NimbusExperiment) : List Variant :=
  n.branches.map fun b => ⟨b.slug, b.slug, decide (n.referenceBranch = some b.slug)⟩

/-- `NimbusExperiment.to_experiment_maybe` (invoke.py lines 168-177): `None`
when `startDate` is falsy (i.e. `None`: datetimes are never falsy), else the
normalized `Experiment` with `start_date` in epoch milliseconds. -/
def to_experiment_maybe (n : NimbusExperiment) : Option Experiment :=
  match n.startDate with
  | none => none
  | some d => some ⟨n.userFacingName, n.slug, n.slug, branches_as_variants n, some (d * 1000)⟩

/-- Python `dict` insertion: an existing key keeps its position and gets the
new value, a new key is appended. -/
def dictInsert (d : List (String × Experiment)) (k : String) (v : Experiment) :
    List (String × Experiment) :=
  if d.any fun kv => decide (kv.1 = k) then
    d.map fun kv => if kv.1 = k then (k, v) else kv
  else
    d ++ [(k, v)]

/-- One step of the dict comprehension `{x.filename_slug: x for x in l if x}`. -/
def registryStep (d : List (String × Experiment)) (x : Option Experiment) :
    List (String × Experiment) :=
  match x with
  | none => d
  | some e => dictInsert d (filename_slug e) e

/-- `ExperimentCollection.from_experimenter` (invoke.py lines 198-207), with
the two HTTP feeds abstracted as already-structured input lists: the v1 feed
gives `Experiment`s directly, the v6 feed gives `NimbusExperiment`s passed
through `to_experiment_maybe`; the dict comprehension keeps the truthy
entries. -/
def from_experimenter (legacy : List Experiment) (nimbus : List NimbusExperiment) :
    List (String × Experiment) :=
  List.foldl registryStep [] (legacy.map some ++ nimbus.map to_experiment_maybe)

/-- The chars after the first occurrence of `sep`, `none` when `sep` is
absent.  (= Python `s.split(sep, 1)[1]`, whose `[1]` raises on `none`.) -/
def afterFirst (sep : Char) : List Char → Option (List Char)
  | [] => none
  | c :: cs => if c = sep then some cs else afterFirst sep cs

/-- The chars before the first occurrence of `sep` (the whole list when `sep`
is absent). -/
def beforeFirst (sep : Char) : List Char → List Char
  | [] => []
  | c :: cs => if c = sep then [] else c :: beforeFirst sep cs

/-- Python `s.rsplit(sep, 1)[0]`: the chars before the last occurrence of
`sep`, or the whole string when `sep` is absent. -/
def beforeLast (sep : Char) (s : List Char) : List Char :=
  match afterFirst sep s.reverse with
  | none => s
  | some r => r.reverse

/-- `pathlib.PurePath.suffix` on a file name: `name[i:]` for `i` the index of
the last dot when `0 < i < len(name) - 1`, else the empty string. -/
def pySuffix (name : List Char) : List Char :=
  match afterFirst '.' name.reverse with
  | none => []
  | some rpre =>
    let ext := (beforeFirst '.' name.reverse).reverse
    if rpre.isEmpty || ext.isEmpty then [] else '.' :: ext

/-- `slug_from_filename` (invoke.py lines 320-323), on the path's file name.
`Except.error ()` models the `IndexError` raised by `split("_", 1)[1]` when
the name contains no underscore; `ok none` is the explicit `None` for a
non-json suffix. -/
def slug_from_filename (name : List Char) : Except Unit (Option (List Char)) :=
  if List.isSuffixOf "json".toList (pySuffix name) then
    match afterFirst '_' (beforeLast '_' name) with
    | some s => Except.ok (some s)
    | none => Except.error ()
  else
    Except.ok none

/-- The file name `statistics_<slug>_<period>.json` built by
`ResultSet.get_result` (invoke.py lines 292-300). -/
def result_filename (slug period : List Char) : List Char :=
  "statistics_".toList ++ slug ++ "_".toList ++ period ++ ".json".toList

/-! ## Theorems -/

/-- C3 counterexample: with the results subdirectory missing, the scan raises
(`Path.iterdir` raises `FileNotFoundError`); it does not return the empty
collection. -/
theorem new_since_missing_dir_counterexample :
    new_since_last_run none 0 (some 0) = Except.error () := rfl

/-- C3 (amended): when the result subdirectory of the cache does not exist,
`new_since_last_run` raises a file-not-found error, for every value of the
`since` argument; the directory exists in normal operation because `sync`
creates it. -/
theorem new_since_missing_dir (stored : Int) (since : Option Int) :
    new_since_last_run none stored since = Except.error () := rfl

/-- C5: `new_since_last_run` is antitone in its timestamp argument: over a
fixed directory listing, whenever `t1 < t2` the files returned for `t2` are a
subset of those returned for `t1`. -/
theorem new_since_antitone (files : List (String × Int)) (stored t1 t2 : Int)
    (h : t1 < t2) :
    new_since_last_run (some files) stored (some t2) = Except.ok (scanResults files t2)
    ∧ scanResults files t2 ⊆ scanResults files t1 := by
  refine ⟨rfl, ?_⟩
  intro p hp
  simp only [scanResults, List.mem_map, List.mem_filter, decide_eq_true_eq] at hp ⊢
  obtain ⟨f, ⟨hf, hlt⟩, rfl⟩ := hp
  exact ⟨f, ⟨hf, lt_trans h hlt⟩, rfl⟩

/-- Witness for C5 at a concrete listing and pair of timestamps. -/
theorem new_since_antitone_witness :
    new_since_last_run (some [("a", 1)]) 0 (some 1) = Except.ok (scanResults [("a", 1)] 1)
    ∧ scanResults [("a", 1)] 1 ⊆ scanResults [("a", 1)] 0 :=
  new_since_antitone [("a", 1)] 0 0 1 (by decide)

/-- C7: a mirrored file is in `new_since_last_run since` iff its mtime is
strictly greater than `since` (equal mtimes excluded), and when `since` is
omitted the persisted last-run marker is used. -/
theorem new_since_spec (files : List (String × Int)) (stored since : Int) (p : String) :
    (p ∈ scanResults files since ↔ ∃ m, (p, m) ∈ files ∧ since < m)
    ∧ new_since_last_run (some files) stored (some since) = Except.ok (scanResults files since)
    ∧ new_since_last_run (some files) stored none = Except.ok (scanResults files stored) := by
  refine ⟨?_, rfl, rfl⟩
  simp only [scanResults, List.mem_map, List.mem_filter, decide_eq_true_eq]
  constructor
  · rintro ⟨f, ⟨hf, hlt⟩, rfl⟩
    exact ⟨f.2, hf, hlt⟩
  · rintro ⟨m, hm, hlt⟩
    exact ⟨(p, m), ⟨hm, hlt⟩, rfl⟩

/-- A stand-in for `dateutil.parser.isoparse`, accepting exactly `"7"`. -/
def isoStub (s : List Char) : Option Int :=
  if s = "7".toList then some 7 else none

/-- C8: `Cache.last_run` returns the parsed value of the marker file when it
is present and parses, and `datetime.min` (tz-aware) whenever the file is
absent or its content fails to parse; as a total function it never raises. -/
theorem last_run_spec (parse : List Char → Option Int) (s : List Char) (t : Int) :
    last_run parse none = datetimeMin
    ∧ (parse (pyStrip s) = some t → last_run parse (some s) = t)
    ∧ (parse (pyStrip s) = none → last_run parse (some s) = datetimeMin) := by
  refine ⟨rfl, fun h => ?_, fun h => ?_⟩ <;> simp [last_run, read_text, h]

/-- Witness for C8: a well-formed marker parses (whitespace stripped), a
missing marker falls back to the minimum timestamp. -/
theorem last_run_spec_witness :
    last_run isoStub (some " 7 ".toList) = 7 ∧ last_run isoStub none = datetimeMin :=
  ⟨(last_run_spec isoStub " 7 ".toList 7).2.1 (by decide), (last_run_spec isoStub [] 0).1⟩

/-- C6: a Nimbus feed entry without a start date normalizes to `None` and the
dict comprehension drops it, so the merged registry is the same with or
without the entry: it is absent entirely, not present with a null date. -/
theorem nimbus_no_start_excluded (n : NimbusExperiment) (h : n.startDate = none)
    (legacy : List Experiment) (pre post : List NimbusExperiment) :
    to_experiment_maybe n = none
    ∧ from_experimenter legacy (pre ++ n :: post) = from_experimenter legacy (pre ++ post) := by
  have hn : to_experiment_maybe n = none := by simp [to_experiment_maybe, h]
  refine ⟨hn, ?_⟩
  simp [from_experimenter, List.map_append, List.foldl_append, hn, registryStep]

/-- Witness for C6: a concrete no-start-date entry leaves the registry
unchanged (here: empty). -/
theorem nimbus_no_start_excluded_witness :
    to_experiment_maybe ⟨"s", "n", [⟨"x"⟩], none, none⟩ = none
    ∧ from_experimenter [] [⟨"s", "n", [⟨"x"⟩], none, none⟩] = from_experimenter [] [] :=
  nimbus_no_start_excluded ⟨"s", "n", [⟨"x"⟩], none, none⟩ rfl [] [] []

/-- The loop variable after the `for`/`break` loop when no variant is a
control: the last element if the list is non-empty, else the accumulator. -/
theorem loopVar_no_control (l : List Variant) (h : ∀ v ∈ l, v.is_control = false)
    (acc : Option Variant) :
    loopVar acc l = (l.getLast?).or acc := by
  induction l generalizing acc with
  | nil => rfl
  | cons v vs ih =>
    have hv : v.is_control = false := h v (List.mem_cons_self v vs)
    have hrec : loopVar acc (v :: vs) = loopVar (some v) vs := by
      simp [loopVar, hv]
    rw [hrec, ih (fun w hw => h w (List.mem_cons_of_mem v hw)) (some v)]
    cases vs with
    | nil => rfl
    | cons w ws =>
      rw [List.getLast?_cons_cons]
      cases hlast : (w :: ws).getLast? with
      | none => exact absurd hlast (by simp [List.getLast?_cons_cons, List.getLast?_isSome.mp])
      | some u => rfl

/-- C9: for an `Experiment` with a non-empty variants list in which no variant
is a control, `control_branch_slug` returns the slug of the last variant; for
an empty variants list the loop variable is unbound and the access raises. -/
theorem control_branch_spec (e e2 : Experiment)
    (h1 : e.variants ≠ []) (h2 : ∀ v ∈ e.variants, v.is_control = false)
    (h3 : e2.variants = []) :
    control_branch_slug e = Except.ok ((e.variants.getLast h1).slug)
    ∧ control_branch_slug e2 = Except.error () := by
  constructor
  · rw [control_branch_slug, loopVar_no_control e.variants h2 none,
      List.getLast?_eq_getLast e.variants h1]
    rfl
  · rw [control_branch_slug, h3]
    rfl

/-- Witness for C9 at a two-variant experiment with no control, and an
empty-variants experiment. -/
theorem control_branch_spec_witness :
    control_branch_slug ⟨"n", "s", "ns", [⟨"a", "da", false⟩, ⟨"b", "db", false⟩], none⟩ =
      Except.ok "b"
    ∧ control_branch_slug ⟨"n", "s", "ns", [], none⟩ = Except.error () :=
  have h := control_branch_spec
    ⟨"n", "s", "ns", [⟨"a", "da", false⟩, ⟨"b", "db", false⟩], none⟩
    ⟨"n", "s", "ns", [], none⟩ (by simp) (by decide) rfl
  ⟨h.1.trans rfl, h.2⟩

/-- C2 counterexample: with no files present, `available_code` returns
`" ".join([])`, i.e. the empty string, not the literal string `"None"`. -/
theorem available_code_counterexample : available_code none none none ≠ "None" := by
  decide

/-- C2 (amended): `available_code` returns `"O"` for overall only, `"O W3"`
for overall plus a weekly file with 3 distinct window indices, and the empty
string (not `"None"`) when no files are present; a failure while computing it
(here: a weekly file missing the `window_index` column, e.g. an empty file)
degrades to the literal string `"None"` instead of propagating. -/
theorem available_code_amended (od wd dd : DataFrame)
    (hw : wd.hasWindowIndex = true)
    (h3 : (wd.rows.map fun r => r.window_index).dedup.length = 3)
    (hd : dd.hasWindowIndex = false) :
    available_code (some od) none none = "O"
    ∧ available_code (some od) (some wd) none = "O W3"
    ∧ available_code none none none = ""
    ∧ available_code (some od) (some dd) none = "None" := by
  refine ⟨rfl, ?_, rfl, ?_⟩
  · simp only [available_code, availableGo, appendPeriod, windowCount, hw, h3, if_true]
    rfl
  · simp only [available_code, availableGo, appendPeriod, windowCount, hd]
    rfl

/-- Witness for C2 (amended) at concrete parsed files: an overall file, a
weekly file with window indices 1, 2, 3, and an empty weekly file without the
`window_index` column. -/
theorem available_code_amended_witness :
    available_code (some ⟨false, false, []⟩) none none = "O"
    ∧ available_code (some ⟨false, false, []⟩)
        (some ⟨false, true, [⟨none, some 1⟩, ⟨none, some 2⟩, ⟨none, some 3⟩]⟩) none = "O W3"
    ∧ available_code none none none = ""
    ∧ available_code (some ⟨false, false, []⟩) (some ⟨false, false, []⟩) none = "None" :=
  available_code_amended ⟨false, false, []⟩
    ⟨false, true, [⟨none, some 1⟩, ⟨none, some 2⟩, ⟨none, some 3⟩]⟩
    ⟨false, false, []⟩ rfl (by decide) rfl

/-- C1 counterexample: a file whose segment column is present but whose
defaulted values do not include `"all"` makes `segments.remove("all")` raise
`KeyError`, so `Result.segments` does not return a list at all. -/
theorem segments_counterexample :
    segments ⟨true, false, [⟨some "x", none⟩]⟩ = Except.error () := rfl

/-- C1 (amended): when the segment column is absent `Result.segments` returns
exactly `["all"]`; when the column is present, null values are treated as
`"all"`, and provided `"all"` occurs among the defaulted values the result is
`"all"` first followed by the strictly sorted remaining distinct values with
no duplicates, independent of the order of the rows; when the column is
present but `"all"` does not occur, `segments.remove("all")` raises. -/
theorem segments_amended (d d2 : DataFrame)
    (h : d.hasSegment = true) (hall : "all" ∈ defaultedSegments d)
    (h2 : d2.hasSegment = false) :
    segments d = Except.ok ("all" :: segmentsRest d)
    ∧ List.Sorted (· < ·) (segmentsRest d)
    ∧ (∀ s, s ∈ segmentsRest d ↔ s ∈ defaultedSegments d ∧ s ≠ "all")
    ∧ (∀ l, l.Perm d.rows → segments ⟨d.hasSegment, d.hasWindowIndex, l⟩ = segments d)
    ∧ segments d2 = Except.ok ["all"] := by
  have halld : "all" ∈ (defaultedSegments d).dedup := List.mem_dedup.mpr hall
  refine ⟨?_, ?_, ?_, ?_, ?_⟩
  · simp [segments, h, halld]
  · have hs : List.Sorted (fun a b => a ≤ b) (segmentsRest d) :=
      List.sorted_insertionSort _ _
    have hnd : (segmentsRest d).Nodup := by
      have h1 : (((defaultedSegments d).dedup).filter fun s => decide (s ≠ "all")).Nodup :=
        (List.nodup_dedup _).filter _
      exact ((List.perm_insertionSort _ _).nodup_iff).mpr h1
    exact hs.lt_of_le hnd
  · intro s
    simp [segmentsRest, List.mem_insertionSort, List.mem_filter, List.mem_dedup]
  · intro l hp
    have hmap : (defaultedSegments ⟨d.hasSegment, d.hasWindowIndex, l⟩).Perm
        (defaultedSegments d) := by
      simpa [defaultedSegments] using hp.map fun r => r.segment.getD "all"
    have hdd := hmap.dedup
    have hrest : segmentsRest ⟨d.hasSegment, d.hasWindowIndex, l⟩ = segmentsRest d := by
      refine List.eq_of_perm_of_sorted ?_ (List.sorted_insertionSort _ _)
        (List.sorted_insertionSort _ _)
      exact (List.perm_insertionSort _ _).trans
        ((hdd.filter _).trans (List.perm_insertionSort _ _).symm)
    have hmem : "all" ∈ (defaultedSegments ⟨d.hasSegment, d.hasWindowIndex, l⟩).dedup :=
      hdd.mem_iff.mpr halld
    rw [h] at hmem hrest
    simp [segments, h, hmem, halld, hrest]
  · simp [segments, h2]

/-- Witness for C1 (amended) at a concrete file with rows `b`, null, `a` (the
null defaults to `"all"`), and an absent segment column. -/
theorem segments_amended_witness :
    segments ⟨true, false, [⟨some "b", none⟩, ⟨none, none⟩, ⟨some "a", none⟩]⟩ =
      Except.ok ("all" ::
        segmentsRest ⟨true, false, [⟨some "b", none⟩, ⟨none, none⟩, ⟨some "a", none⟩]⟩)
    ∧ segments ⟨false, false, []⟩ = Except.ok ["all"] :=
  have h := segments_amended ⟨true, false, [⟨some "b", none⟩, ⟨none, none⟩, ⟨some "a", none⟩]⟩
    ⟨false, false, []⟩ rfl (by decide) rfl
  ⟨h.1, h.2.2.2.2⟩

/-- `afterFirst` finds the first occurrence of the separator. -/
theorem afterFirst_append (sep : Char) (l1 l2 : List Char) (h : sep ∉ l1) :
    afterFirst sep (l1 ++ sep :: l2) = some l2 := by
  induction l1 with
  | nil => simp [afterFirst]
  | cons c cs ih =>
    have hc : ¬c = sep := by
      rintro rfl
      exact h (List.mem_cons_self c cs)
    simp only [List.cons_append, afterFirst, if_neg hc]
    exact ih fun hm => h (List.mem_cons_of_mem c hm)

/-- `afterFirst` yields nothing when the separator is absent. -/
theorem afterFirst_eq_none (sep : Char) (l : List Char) (h : sep ∉ l) :
    afterFirst sep l = none := by
  induction l with
  | nil => rfl
  | cons c cs ih =>
    have hc : ¬c = sep := by
      rintro rfl
      exact h (List.mem_cons_self c cs)
    simp only [afterFirst, if_neg hc]
    exact ih fun hm => h (List.mem_cons_of_mem c hm)

/-- `beforeFirst` keeps exactly the part before the first separator. -/
theorem beforeFirst_append (sep : Char) (l1 l2 : List Char) (h : sep ∉ l1) :
    beforeFirst sep (l1 ++ sep :: l2) = l1 := by
  induction l1 with
  | nil => simp [beforeFirst]
  | cons c cs ih =>
    have hc : ¬c = sep := by
      rintro rfl
      exact h (List.mem_cons_self c cs)
    simp only [List.cons_append, beforeFirst, if_neg hc]
    exact congrArg (c :: ·) (ih fun hm => h (List.mem_cons_of_mem c hm))

/-- Extraction from a name of the shape
`<A>_<slug>_<pc>.<J>` where the head `A`, the tail `J` and the period `pc`
contain no separator characters of their own: the slug comes back out. -/
theorem slug_from_filename_concat (A slug pc J : List Char)
    (hAu : '_' ∉ A) (hJd : '.' ∉ J) (hJu : '_' ∉ J) (hpcu : '_' ∉ pc)
    (hJne : J ≠ [])
    (hsuf : List.isSuffixOf "json".toList ('.' :: J) = true) :
    slug_from_filename (A ++ '_' :: (slug ++ '_' :: (pc ++ '.' :: J))) =
      Except.ok (some slug) := by
  set n : List Char := A ++ '_' :: (slug ++ '_' :: (pc ++ '.' :: J)) with hn
  have hrev : n.reverse = J.reverse ++ '.' :: (pc.reverse ++ '_' :: (slug.reverse ++ '_' :: A.reverse)) := by
    simp [hn, List.reverse_append]
  have hsufx : pySuffix n = '.' :: J := by
    rw [pySuffix, hrev, afterFirst_append '.' J.reverse _ (by simpa using hJd),
      beforeFirst_append '.' J.reverse _ (by simpa using hJd)]
    have h1 : (pc.reverse ++ '_' :: (slug.reverse ++ '_' :: A.reverse)).isEmpty = false := by
      cases hc : pc.reverse with
      | nil => rfl
      | cons x xs => rfl
    rw [List.reverse_reverse]
    have h2 : J.isEmpty = false := by
      cases J with
      | nil => exact absurd rfl hJne
      | cons x xs => rfl
    simp [h1, h2]
  have hbl : beforeLast '_' n = A ++ '_' :: slug := by
    rw [beforeLast, hrev]
    have hassoc : J.reverse ++ '.' :: (pc.reverse ++ '_' :: (slug.reverse ++ '_' :: A.reverse)) =
        (J.reverse ++ '.' :: pc.reverse) ++ '_' :: (slug.reverse ++ '_' :: A.reverse) := by
      simp
    rw [hassoc, afterFirst_append '_' _ _ ?side]
    case side =>
      simp only [List.mem_append, List.mem_cons, List.mem_reverse]
      rintro (hm | hm | hm)
      · exact hJu hm
      · exact absurd hm (by decide)
      · exact hpcu hm
    simp
  have haf : afterFirst '_' (beforeLast '_' n) = some slug := by
    rw [hbl, afterFirst_append '_' A slug hAu]
  rw [slug_from_filename, hsufx, if_pos hsuf, haf]

/-- The name built by `get_result`, re-bracketed around its separators. -/
theorem result_filename_shape (slug period : List Char) :
    result_filename slug period =
      "statistics".toList ++ '_' :: (slug ++ '_' :: (period ++ '.' :: "json".toList)) := by
  have e1 : "statistics_".toList = "statistics".toList ++ ['_'] := rfl
  have e2 : ("_".toList : List Char) = ['_'] := rfl
  have e3 : (".json".toList : List Char) = '.' :: "json".toList := rfl
  rw [result_filename, e1, e2, e3]
  simp

/-- C4: for every experiment identifier and every period in
{overall, weekly, daily}, extracting the identifier from
`statistics_<id>_<period>.json` yields the identifier again. -/
theorem slug_roundtrip (slug period : List Char)
    (h : period = "overall".toList ∨ period = "weekly".toList ∨ period = "daily".toList) :
    slug_from_filename (result_filename slug period) = Except.ok (some slug) := by
  rw [result_filename_shape]
  rcases h with h | h | h <;> subst h <;>
    exact slug_from_filename_concat _ _ _ _ (by decide) (by decide) (by decide) (by decide)
      (by decide) (by decide)

/-- Witness for C4 at a concrete identifier and the `overall` period. -/
theorem slug_roundtrip_witness :
    slug_from_filename (result_filename "my_exp".toList "overall".toList) =
      Except.ok (some "my_exp".toList) :=
  slug_roundtrip "my_exp".toList "overall".toList (Or.inl rfl)

/-- C10: on a name whose suffix ends with `json` but which contains no
underscore, `slug_from_filename` raises `IndexError` (from `split("_", 1)[1]`)
rather than returning no identifier; the `None` result occurs only when the
suffix does not end with `json`. -/
theorem slug_json_requires_underscore (name : List Char) :
    (List.isSuffixOf "json".toList (pySuffix name) = true → '_' ∉ name →
      slug_from_filename name = Except.error ())
    ∧ (slug_from_filename name = Except.ok none →
      List.isSuffixOf "json".toList (pySuffix name) = false) := by
  constructor
  · intro hj hu
    have hur : '_' ∉ name.reverse := by simpa using hu
    have hbl : beforeLast '_' name = name := by
      rw [beforeLast, afterFirst_eq_none '_' name.reverse hur]
    rw [slug_from_filename, if_pos hj, hbl, afterFirst_eq_none '_' name hu]
  · intro hok
    cases hj : List.isSuffixOf "json".toList (pySuffix name) with
    | false => rfl
    | true =>
      exfalso
      unfold slug_from_filename at hok
      rw [if_pos hj] at hok
      cases h : afterFirst '_' (beforeLast '_' name) with
      | none => rw [h] at hok; exact Except.noConfusion hok
      | some s => rw [h] at hok; simp at hok

/-- Witness for C10 at the json-suffixed, underscore-free name
`results.json`. -/
theorem slug_json_requires_underscore_witness :
    slug_from_filename "results.json".toList = Except.error () :=
  (slug_json_requires_underscore "results.json".toList).1 (by decide) (by decide)
